import Mathlib

/-!
# Verification of the asset discovery & mirroring engine of `plesk-common-layout`

This file gives a shallow embedding of the core of `src/index.js`
(the URL/path resolver, the CSS reference extractor, the downloader and the
three mirroring phases `collectFiles`, `collectStyleUrls`, `collectCssUrls`)
and proves or refutes the specification's claims about it.

JavaScript strings are modelled as `List Char` (`JsStr`).  Node's
`path.posix` functions (`resolve`, `dirname`) are modelled segment-wise.
The external `css` npm library's `parse` is modelled as an abstract
function `cssParse : JsStr → Option Stylesheet` (`none` models a thrown
parse error, which `parseCssSafe` turns into `null`).  Filesystem state is a
list of `(path, contents)` pairs; each download appends the fetched body.
-/

/-- Model of a JavaScript string: a list of UTF-16-ish characters. -/
abbrev JsStr := List Char

/-- Embed a Lean string literal into the model. -/
def js (s : String) : JsStr := s.data

/-- JS `s.startsWith(p)`. -/
def jsStartsWith (s p : JsStr) : Bool := p.isPrefixOf s

/-- JS `s.endsWith(p)`. -/
def jsEndsWith (s p : JsStr) : Bool := p.isSuffixOf s

/-- JS `src.replace(/^\//, '')`: drop one leading slash if present. -/
def stripLeadingSlash (s : JsStr) : JsStr :=
  match s with
  | '/' :: t => t
  | _ => s

/-- JS `url.replace(/\?.*$/m ...)` — precisely `url.replace(/\?.*/, '')`:
delete from the first `?` to the end of its line (`.` does not match `\n`). -/
def stripQuery (s : JsStr) : JsStr :=
  (s.takeWhile (fun c => c ≠ '?')) ++
    ((s.dropWhile (fun c => c ≠ '?')).dropWhile (fun c => c ≠ '\n'))

/-- Model of legacy `url.parse(src).pathname` for the path-style references
that reach `collectFiles` (everything before the first `?` or `#`;
an empty pathname is `null`).  References beginning with `http` never get
here (the code returns early on them). -/
def parsePathname (src : JsStr) : Option JsStr :=
  let p := src.takeWhile (fun c => c ≠ '?' ∧ c ≠ '#')
  if p = [] then none else some p

/-! ## Node `path.posix` model -/

/-- Split a character list on a separator character (like `String.split`). -/
def splitOnChar (sep : Char) : JsStr → List JsStr
  | [] => [[]]
  | c :: rest =>
    match splitOnChar sep rest with
    | [] => [[]]
    | g :: gs => if c = sep then [] :: g :: gs else (c :: g) :: gs

/-- Split a path into its `/`-separated segments. -/
def splitSlash (s : JsStr) : List JsStr := splitOnChar '/' s

/-- Join segments with `/` (inverse of `splitSlash` on clean segments). -/
def joinSegs : List JsStr → JsStr
  | [] => []
  | [x] => x
  | x :: xs => x ++ '/' :: joinSegs xs

/-- One step of path normalization: empty and `.` segments are skipped,
`..` pops the last accumulated segment (clamping at the root), anything
else is appended. -/
def stepSeg (acc : List JsStr) (s : JsStr) : List JsStr :=
  if s = [] ∨ s = ['.'] then acc
  else if s = ['.', '.'] then acc.dropLast
  else acc ++ [s]

/-- Normalize a segment list, starting from already-resolved `acc`. -/
def resolveSegs (acc : List JsStr) (segs : List JsStr) : List JsStr :=
  segs.foldl stepSeg acc

/-- Render resolved segments as an absolute path. -/
def joinAbs (segs : List JsStr) : JsStr := '/' :: joinSegs segs

/-- Node `path.resolve(base, rel)` for an absolute `base` (the only use in
the program: `publicDirectory` is an absolute root). -/
def pathResolve (base rel : JsStr) : JsStr :=
  if jsStartsWith rel (js "/") then joinAbs (resolveSegs [] (splitSlash rel))
  else joinAbs (resolveSegs [] (splitSlash base ++ splitSlash rel))

/-- Node `path.resolve(p)` for an absolute `p`: plain normalization. -/
def pathResolve1 (p : JsStr) : JsStr := joinAbs (resolveSegs [] (splitSlash p))

/-- Node `path.dirname` (on the slash-separated paths the program feeds it:
no trailing slash). -/
def pathDirname (p : JsStr) : JsStr :=
  match (splitSlash p).dropLast with
  | [] => ['.']
  | [[]] => ['/']
  | l => joinSegs l

/-! ## CSS reference extractor (`parseCssDataUrls`) -/

/-- A CSS declaration as produced by the `css` library: `value` may be
absent. -/
structure Declaration where
  value : Option JsStr
deriving DecidableEq

/-- A CSS rule: `declarations` is absent on at-rules. -/
structure CssRule where
  declarations : Option (List Declaration)
deriving DecidableEq

/-- The `stylesheet.rules` part of a `css.parse` result. -/
structure Stylesheet where
  rules : List CssRule
deriving DecidableEq

/-- The character class of the extraction regexp
`url\(['"]?(?<url>[\w\-\=\.\?\&\#\/]+)['"]?\)` — `\w` plus `- = . ? & # /`. -/
def isUrlChar (c : Char) : Bool :=
  c.isAlphanum || c = '_' || c = '-' || c = '=' || c = '.' || c = '?' ||
    c = '&' || c = '#' || c = '/'

/-- Match the literal characters `lit` at the head of `l`. -/
def stripLit : JsStr → JsStr → Option JsStr
  | [], l => some l
  | _ :: _, [] => none
  | c :: cs, x :: xs => if x = c then stripLit cs xs else none

/-- Consume the optional quote `['"]?` of the extraction regexp. -/
def dropOptQuote (l : JsStr) : JsStr :=
  match l with
  | q :: t => if q = '\'' || q = '"' then t else l
  | [] => l

/-- Try to match `url\(['"]?([\w\-=.?&#\/]+)['"]?\)` at the start of `l`;
on success return the captured group and the remainder after the match. -/
def matchUrlAt (l : JsStr) : Option (JsStr × JsStr) :=
  match stripLit (js "url(") l with
  | none => none
  | some l1 =>
    let l2 := dropOptQuote l1
    let g := l2.takeWhile isUrlChar
    let l3 := l2.dropWhile isUrlChar
    if g = [] then none
    else
      match dropOptQuote l3 with
      | ')' :: t => some (g, t)
      | _ => none

/-- All matches of the `url(...)` regexp over `l`, left to right, resuming
after each match (the semantics of `value.matchAll(urlRegexp)`); `fuel`
bounds the scan (callers pass the input length, which always suffices). -/
def cssUrlMatchesAux : Nat → JsStr → List JsStr
  | 0, _ => []
  | _, [] => []
  | fuel + 1, c :: rest =>
    match matchUrlAt (c :: rest) with
    | some (g, rest1) => g :: cssUrlMatchesAux fuel rest1
    | none => cssUrlMatchesAux fuel rest

/-- All captured `url(...)` arguments in a declaration value. -/
def cssUrlMatches (s : JsStr) : List JsStr := cssUrlMatchesAux s.length s

/-- `parseCssSafe`: `css.parse` wrapped in try/catch — a parse error
(modelled by `none`) becomes `null` (also `none`). -/
def parseCssSafe (cssParse : JsStr → Option Stylesheet) (data : JsStr) :
    Option Stylesheet :=
  cssParse data

/-- `url(...)` arguments of one declaration (`if (!value) return` skips an
absent or empty value). -/
def declUrls (d : Declaration) : List JsStr :=
  match d.value with
  | none => []
  | some v => if v = [] then [] else cssUrlMatches v

/-- `parseCssDataUrls`: extract every `url(...)` argument from every
declaration of every rule; a failed parse yields `[]`. -/
def parseCssDataUrls (cssParse : JsStr → Option Stylesheet) (data : JsStr) :
    List JsStr :=
  match parseCssSafe cssParse data with
  | none => []
  | some obj =>
    obj.rules.foldl
      (fun acc r =>
        acc ++ (r.declarations.getD []).foldl (fun acc2 d => acc2 ++ declUrls d) [])
      []

/-! ## Downloader (`downloadFile`) -/

/-- An HTTPS response as seen by `https.get`'s callback: a status code, the
body chunks delivered in order, and whether the connection drops (the
stream emits `error` instead of `end`) after those chunks. -/
structure HttpResponse where
  statusCode : Nat
  chunks : List JsStr
  transportError : Bool
deriving DecidableEq

/-- How the `downloadFile` promise ends up. -/
inductive DlResult
  /-- The promise resolves (the write stream emitted `finish`). -/
  | resolved
  /-- The promise rejects (the write stream emitted `error`). -/
  | rejected
  /-- The promise never settles (no handler fired). -/
  | pending
deriving DecidableEq

/-- `downloadFile(src, dst)`: `https.get(src, res => { const file =
fs.createWriteStream(dst); res.pipe(file); file.on('finish', resolve);
file.on('error', reject); })`.  The status code is never inspected; the
body is piped to `dst` unconditionally.  A response `error` has no handler:
the pipe stops, the file never finishes, and the promise never settles.
Returns the promise outcome and the bytes written to `dst`. -/
def downloadFile (res : HttpResponse) : DlResult × JsStr :=
  if res.transportError then (DlResult.pending, res.chunks.foldl (· ++ ·) [])
  else (DlResult.resolved, res.chunks.foldl (· ++ ·) [])

/-! ## Engine state and the three mirroring phases -/

/-- Errors thrown by the engine. -/
inductive JsError
  /-- `applyToSources`: `'No matches found.'` (the structural-mismatch
  failure). -/
  | structuralMismatch
  /-- `collectFiles`: `'Invalid file url'` (null pathname). -/
  | invalidFileUrl
  /-- `collectFiles`: `` `The source url "${src}" is invalid` `` (the
  path-traversal failure). -/
  | invalidSourceUrl (src : JsStr)
  /-- `collectStyleUrls`: `TypeError` from reading `.data` of
  `node.children[0]` when a `<style>` element has no children. -/
  | typeErrorUndefined
deriving DecidableEq

/-- Mutable state threaded through a run: the filesystem (path ↦ contents,
most recent first) and the download calls issued so far, in order,
as `(fetchURL, destinationPath)` pairs. -/
structure RunState where
  disk : List (JsStr × JsStr)
  calls : List (JsStr × JsStr)
deriving DecidableEq

/-- `fs.existsSync(p)` over the modelled disk. -/
def fsExistsSync (disk : List (JsStr × JsStr)) (p : JsStr) : Bool :=
  disk.any (fun f => f.1 = p)

/-- The download calls of a phase result (`[]` when the phase threw before
or instead of downloading). -/
def callsOf : Except JsError RunState → List (JsStr × JsStr)
  | Except.ok st => st.calls
  | Except.error _ => []

/-- `applyToSources($​, fn)`: collect every match of the seven
element/attribute selectors (here the list of matched attribute values,
in selector order), throw `'No matches found.'` if there are none, then
run the per-reference handler sequentially over the matches. -/
def applyToSources (matchList : List JsStr)
    (fn : RunState → JsStr → Except JsError RunState) (st : RunState) :
    Except JsError RunState :=
  if matchList.length = 0 then Except.error JsError.structuralMismatch
  else matchList.foldlM fn st

/-- The per-reference handler of `collectFiles`: skip `http...` references;
`pathname` of the rest must be non-null; resolve against
`publicDirectory`; reject a resolved path that does not start with
`path.resolve(publicDirectory)`; skip already-present files; otherwise
download `origin + src` (query intact) to the query-free path. -/
def collectFilesStep (remote : JsStr → JsStr) (publicDirectory origin : JsStr)
    (st : RunState) (src : JsStr) : Except JsError RunState :=
  if jsStartsWith src (js "http") then Except.ok st
  else
    match parsePathname src with
    | none => Except.error JsError.invalidFileUrl
    | some p =>
      let dst := pathResolve publicDirectory (stripLeadingSlash p)
      if ¬ jsStartsWith dst (pathResolve1 publicDirectory) then
        Except.error (JsError.invalidSourceUrl src)
      else if fsExistsSync st.disk dst then Except.ok st
      else
        Except.ok
          { disk := (dst, remote (origin ++ src)) :: st.disk,
            calls := st.calls ++ [(origin ++ src, dst)] }

/-- `collectFiles($​, { publicDirectory, origin })` (DOM attribute scan):
`applyToSources` with the downloading handler. -/
def collectFiles (remote : JsStr → JsStr) (publicDirectory origin : JsStr)
    (matchList : List JsStr) (st : RunState) : Except JsError RunState :=
  applyToSources matchList (collectFilesStep remote publicDirectory origin) st

/-- The shared download loop of `collectStyleUrls` and `collectCssUrls`:
`src = url.replace(/\?.*/, '')`, `dst = path.resolve(publicDirectory,
src.replace(/^\//, ''))`, skip if present on disk, else download
`origin + src` (note: the query-stripped `src` is used for the fetch). -/
def cssLoopStep (remote : JsStr → JsStr) (publicDirectory origin : JsStr)
    (st : RunState) (url : JsStr) : RunState :=
  let src := stripQuery url
  let dst := pathResolve publicDirectory (stripLeadingSlash src)
  if fsExistsSync st.disk dst then st
  else
    { disk := (dst, remote (origin ++ src)) :: st.disk,
      calls := st.calls ++ [(origin ++ src, dst)] }

/-- The `for (const url of urls)` download loop. -/
def cssDownloadLoop (remote : JsStr → JsStr) (publicDirectory origin : JsStr)
    (urls : List JsStr) (st : RunState) : RunState :=
  urls.foldl (cssLoopStep remote publicDirectory origin) st

/-- A child of a `<style>` element; `data` is the text-node payload
(`none` models a node without a `data` property). -/
structure TextNode where
  data : Option JsStr
deriving DecidableEq

/-- A `<style>` element as cheerio presents it: its children array. -/
structure StyleNode where
  children : List TextNode
deriving DecidableEq

/-- The per-`<style>` body of `collectStyleUrls`: `const textNode =
node.children[0]; if (!textNode.data) return;` — reading `.data` of an
absent child throws a `TypeError`; falsy `data` (absent property or empty
text) contributes nothing; otherwise extract the `url(...)` arguments and
keep those under `/wp-content/` or `/wp-includes/`. -/
def styleNodeUrls (cssParse : JsStr → Option Stylesheet) (node : StyleNode) :
    Except JsError (List JsStr) :=
  match node.children.head? with
  | none => Except.error JsError.typeErrorUndefined
  | some textNode =>
    match textNode.data with
    | none => Except.ok []
    | some d =>
      if d = [] then Except.ok []
      else
        Except.ok ((parseCssDataUrls cssParse d).filter fun url =>
          jsStartsWith url (js "/wp-content/") ||
            jsStartsWith url (js "/wp-includes/"))

/-- The `$('style').each(...)` gathering loop, in document order; a thrown
`TypeError` aborts the whole phase. -/
def gatherStyleUrls (cssParse : JsStr → Option Stylesheet) :
    List StyleNode → Except JsError (List JsStr)
  | [] => Except.ok []
  | n :: rest =>
    match styleNodeUrls cssParse n with
    | Except.error e => Except.error e
    | Except.ok us =>
      match gatherStyleUrls cssParse rest with
      | Except.error e => Except.error e
      | Except.ok vs => Except.ok (us ++ vs)

/-- `collectStyleUrls($​, { publicDirectory, origin })` (inline-style scan):
gather the filtered `url(...)` references of every `<style>` element, then
run the download loop over them. -/
def collectStyleUrls (cssParse : JsStr → Option Stylesheet)
    (remote : JsStr → JsStr) (publicDirectory origin : JsStr)
    (nodes : List StyleNode) (st : RunState) : Except JsError RunState :=
  match gatherStyleUrls cssParse nodes with
  | Except.error e => Except.error e
  | Except.ok urls =>
    Except.ok (cssDownloadLoop remote publicDirectory origin urls st)

/-- ``fg(`${publicDirectory}/**/*.css`)``: the `.css` files currently on
disk under `publicDirectory` (in disk-list order). -/
def globCssFiles (publicDirectory : JsStr) (disk : List (JsStr × JsStr)) :
    List (JsStr × JsStr) :=
  disk.filter fun f =>
    jsStartsWith f.1 (publicDirectory ++ js "/") && jsEndsWith f.1 (js ".css")

/-- The reference-classification branch of `collectCssUrls`: namespace
references are kept verbatim; `../` references are rewritten with
`path.resolve(path.dirname(path.dirname(file.substring(
publicDirectory.length))), url.substring(3))`; anything else is dropped. -/
def cssRefLocalPath (publicDirectory file url : JsStr) : Option JsStr :=
  if jsStartsWith url (js "/wp-content/") ||
      jsStartsWith url (js "/wp-includes/") then some url
  else if jsStartsWith url (js "../") then
    some (pathResolve
      (pathDirname (pathDirname (file.drop publicDirectory.length)))
      (url.drop 3))
  else none

/-- `collectCssUrls({ publicDirectory, origin })` (on-disk CSS scan):
enumerate the `.css` files present at entry, read and extract each one's
references, classify them, then run the download loop over the collected
list. -/
def collectCssUrls (cssParse : JsStr → Option Stylesheet)
    (remote : JsStr → JsStr) (publicDirectory origin : JsStr)
    (st : RunState) : RunState :=
  let urls :=
    (globCssFiles publicDirectory st.disk).foldl
      (fun acc f =>
        acc ++ (parseCssDataUrls cssParse f.2).filterMap
          (cssRefLocalPath publicDirectory f.1))
      []
  cssDownloadLoop remote publicDirectory origin urls st

/-- The whole mirroring pass of `downloadLayout`: DOM attribute scan, then
inline-style scan, then on-disk CSS scan, threading the filesystem. -/
def runEngine (cssParse : JsStr → Option Stylesheet) (remote : JsStr → JsStr)
    (publicDirectory origin : JsStr) (domMatches : List JsStr)
    (styleNodes : List StyleNode) (st : RunState) :
    Except JsError RunState :=
  match collectFiles remote publicDirectory origin domMatches st with
  | Except.error e => Except.error e
  | Except.ok st1 =>
    match collectStyleUrls cssParse remote publicDirectory origin styleNodes st1 with
    | Except.error e => Except.error e
    | Except.ok st2 =>
      Except.ok (collectCssUrls cssParse remote publicDirectory origin st2)

/-! ## Concrete scenarios used by counterexamples and witnesses -/

/-- The run state a phase result carries (a failed run keeps the empty
state; only used after a proved `Except.ok`). -/
def stateOf : Except JsError RunState → RunState
  | Except.ok st => st
  | Except.error _ => { disk := [], calls := [] }

/-- A one-rule stylesheet whose single declaration has value `v`. -/
def sheet1 (v : String) : Stylesheet := ⟨[⟨some [⟨some (js v)⟩]⟩]⟩

/-- A remote server always answering with body `X`. -/
def remoteConst : JsStr → JsStr := fun _ => js "X"

/-- CSS parser for the traversal scenario: the inline style text `E`
parses to `body … url(/wp-content/../../../etc/passwd) …`. -/
def cssParseEsc : JsStr → Option Stylesheet := fun d =>
  if d = js "E" then some (sheet1 "url(/wp-content/../../../etc/passwd)")
  else none

/-- CSS parser for the query-string scenario: the inline style text `T`
parses to a declaration referencing `/wp-content/a.js?ver=5`. -/
def cssParseQuery : JsStr → Option Stylesheet := fun d =>
  if d = js "T" then some (sheet1 "url(/wp-content/a.js?ver=5)")
  else none

/-- CSS parser for the two-run scenario: stylesheet `A` references
`/wp-content/b.css`, stylesheet `B` references `/wp-content/f.woff`. -/
def cssParseNest : JsStr → Option Stylesheet := fun d =>
  if d = js "A" then some (sheet1 "url(/wp-content/b.css)")
  else if d = js "B" then some (sheet1 "url(/wp-content/f.woff)")
  else none

/-- Remote server for the two-run scenario: fetching `b.css` yields the
stylesheet text `B`. -/
def remoteNest : JsStr → JsStr := fun u =>
  if u = js "https://o/wp-content/b.css" then js "B" else js "X"

/-- Initial disk for the two-run scenario: the page's stylesheet `a.css`
is already mirrored. -/
def diskNest : List (JsStr × JsStr) := [(js "/p/wp-content/a.css", js "A")]

/-- First engine run of the two-run scenario. -/
def runNest1 : Except JsError RunState :=
  runEngine cssParseNest remoteNest (js "/p") (js "https://o")
    [js "/wp-content/a.css"] [] { disk := diskNest, calls := [] }

/-- Second engine run of the two-run scenario: same page, disk carried
over from the first run, fresh call log. -/
def runNest2 : Except JsError RunState :=
  runEngine cssParseNest remoteNest (js "/p") (js "https://o")
    [js "/wp-content/a.css"] [] { disk := (stateOf runNest1).disk, calls := [] }

/-- CSS parser for the bare-relative scenario: the on-disk stylesheet `S`
references `img/bg.png` relative to its own directory. -/
def cssParseRel : JsStr → Option Stylesheet := fun d =>
  if d = js "S" then some (sheet1 "url(img/bg.png)")
  else none

/-! ## Notions used by the statements and proofs -/

/-- Invariant of the download log: every logged destination is present on
disk, and no destination is logged twice. -/
def CallsInv (st : RunState) : Prop :=
  (∀ c ∈ st.calls, fsExistsSync st.disk c.2 = true) ∧
    (st.calls.map Prod.snd).Nodup

/-- A clean path segment: nonempty, not a dot segment, slash-free (the
shape of the segments of paths produced by the file glob). -/
def cleanSeg (s : JsStr) : Prop :=
  s ≠ [] ∧ s ≠ ['.'] ∧ s ≠ ['.', '.'] ∧ '/' ∉ s

instance (s : JsStr) : Decidable (cleanSeg s) := by
  unfold cleanSeg
  infer_instance

/-! ## Claim theorems -/

/-- C1 counterexample.  The claim says every mirroring phase rejects a
resolved local path escaping `publicDirectory` with a `PathTraversalError`
and performs no write.  In the inline-style scan a `/wp-content/`-prefixed
reference containing `../` escapes: the phase succeeds and downloads
`origin/wp-content/../../../etc/passwd` to `/etc/passwd`, a path outside
`/public`, with no error. -/
theorem styleScan_traversal_escape :
    collectStyleUrls cssParseEsc remoteConst (js "/public") (js "https://www.plesk.com")
      [⟨[⟨some (js "E")⟩]⟩] { disk := [], calls := [] } =
      Except.ok { disk := [(js "/etc/passwd", js "X")],
                  calls := [(js "https://www.plesk.com/wp-content/../../../etc/passwd",
                    js "/etc/passwd")] } ∧
    jsStartsWith (js "/etc/passwd") (js "/public/") = false :=
  ⟨rfl, rfl⟩

/-- C2 (code bug exhibit).  `downloadFile` never inspects the status code:
a 404 response body is piped to the destination and the promise resolves
as a success; a dropped connection leaves the partial body on disk and the
promise never settles — in neither case does a `DownloadError` abort the
run. -/
theorem downloadFile_ignores_status :
    downloadFile { statusCode := 404, chunks := [js "Not Found"], transportError := false } =
      (DlResult.resolved, js "Not Found") ∧
    downloadFile { statusCode := 200, chunks := [js "partial"], transportError := true } =
      (DlResult.pending, js "partial") :=
  ⟨rfl, rfl⟩

/-- C3 counterexample.  The claim says every phase fetches with the query
string preserved.  In the inline-style scan the reference
`/wp-content/a.js?ver=5` is fetched as `origin/wp-content/a.js` — the
query string is stripped from the fetch URL as well. -/
theorem styleScan_fetch_loses_query :
    collectStyleUrls cssParseQuery remoteConst (js "/public") (js "https://www.plesk.com")
      [⟨[⟨some (js "T")⟩]⟩] { disk := [], calls := [] } =
      Except.ok { disk := [(js "/public/wp-content/a.js", js "X")],
                  calls := [(js "https://www.plesk.com/wp-content/a.js",
                    js "/public/wp-content/a.js")] } ∧
    js "https://www.plesk.com/wp-content/a.js" ≠
      js "https://www.plesk.com/wp-content/a.js?ver=5" := by
  refine ⟨rfl, ?_⟩
  decide

/-- C4 counterexample.  The claim says a second run against the same page
and the populated directory issues zero download calls.  Here the first
run's CSS scan downloads `b.css` after the `.css` files were enumerated,
so `b.css` is only scanned by the second run, which then downloads
`f.woff`: the second run issues one download call, not zero. -/
theorem second_run_downloads :
    callsOf runNest1 = [(js "https://o/wp-content/b.css", js "/p/wp-content/b.css")] ∧
    callsOf runNest2 = [(js "https://o/wp-content/f.woff", js "/p/wp-content/f.woff")] ∧
    callsOf runNest2 ≠ [] := by
  refine ⟨rfl, rfl, ?_⟩
  decide

/-- C6 counterexample.  The claim says both `../path` and bare `path`
relative references inside an on-disk CSS file are resolved against the
CSS file's directory.  The extractor does find the bare relative reference
`img/bg.png` in `/p/wp-content/css/style.css`, but the scan drops it (it
matches neither the namespace prefixes nor `../`): no path is resolved and
no download happens. -/
theorem bare_relative_ignored :
    parseCssDataUrls cssParseRel (js "S") = [js "img/bg.png"] ∧
    collectCssUrls cssParseRel remoteConst (js "/p") (js "https://o")
      { disk := [(js "/p/wp-content/css/style.css", js "S")], calls := [] } =
      { disk := [(js "/p/wp-content/css/style.css", js "S")], calls := [] } :=
  ⟨rfl, rfl⟩

/-- C7.  If the DOM attribute scan finds zero element/attribute matches,
`applyToSources` throws `'No matches found.'` before running any handler:
the whole run aborts with the structural-mismatch error and no download
call is issued. -/
theorem zero_matches_aborts (cssParse : JsStr → Option Stylesheet)
    (remote : JsStr → JsStr) (pub origin : JsStr) (styleNodes : List StyleNode)
    (st : RunState) :
    runEngine cssParse remote pub origin [] styleNodes st =
      Except.error JsError.structuralMismatch ∧
    callsOf (runEngine cssParse remote pub origin [] styleNodes st) = [] :=
  ⟨rfl, rfl⟩

/-- C10 counterexample.  The claim says the inline-style scan completes on
every well-formed document, including a `<style>` element with no child
text node.  On `<style></style>` (empty children array) the scan reads
`.data` of `undefined` and throws a `TypeError`, aborting the run. -/
theorem empty_style_element_throws :
    collectStyleUrls cssParseRel remoteConst (js "/p") (js "https://o")
      [⟨[]⟩] { disk := [], calls := [] } = Except.error JsError.typeErrorUndefined :=
  rfl

/-- Helper: `takeWhile`/`dropWhile` split around the first failing
element. -/
theorem takeWhile_append_cons (p : Char → Bool) (l1 l2 : JsStr) (a : Char)
    (h : ∀ x ∈ l1, p x = true) (ha : p a = false) :
    (l1 ++ a :: l2).takeWhile p = l1 ∧ (l1 ++ a :: l2).dropWhile p = a :: l2 := by
  induction l1 with
  | nil => simp [List.takeWhile, List.dropWhile, ha]
  | cons x t ih =>
    have hx : p x = true := h x (by simp)
    have ht : ∀ y ∈ t, p y = true := fun y hy => h y (by simp [hy])
    obtain ⟨ih1, ih2⟩ := ih ht
    simp [List.takeWhile, List.dropWhile, hx, ih1, ih2]

/-- Helper: stripping the query from `p ++ "?" ++ q` leaves `p` (for a
newline-free `q`, the shape of every reference in the program). -/
theorem stripQuery_split (p q : JsStr) (hp : '?' ∉ p) (hq : '\n' ∉ q) :
    stripQuery (p ++ '?' :: q) = p := by
  have h1 : ∀ x ∈ p, (decide (x ≠ '?')) = true := by
    intro x hx
    simp only [decide_eq_true_eq]
    exact fun e => hp (e ▸ hx)
  have ha : (decide (('?' : Char) ≠ '?')) = false := by decide
  obtain ⟨ht, hd⟩ := takeWhile_append_cons (fun c => decide (c ≠ '?')) p q '?' h1 ha
  have h2 : ∀ x ∈ q, (decide (x ≠ '\n')) = true := by
    intro x hx
    simp only [decide_eq_true_eq]
    exact fun e => hq (e ▸ hx)
  unfold stripQuery
  rw [ht, hd]
  have : List.dropWhile (fun c => decide (c ≠ '\n')) ('?' :: q) = [] := by
    rw [List.dropWhile_eq_nil_iff]
    intro x hx
    rcases List.mem_cons.mp hx with h | h
    · subst h; decide
    · exact h2 x h
  rw [this, List.append_nil]

/-- C1 amended.  The containment check exists only in the DOM attribute
scan (`collectFiles`), as a plain string-prefix test against
`path.resolve(publicDirectory)`: when the resolved path fails that test
the handler throws the invalid-source-url error before any directory
creation or download, and a run whose scan reaches that reference aborts.
(The inline-style and on-disk CSS scans perform no such check, per the
counterexample.) -/
theorem domScan_traversal_check (remote : JsStr → JsStr) (pub origin : JsStr)
    (st : RunState) (src p : JsStr) (rest : List JsStr)
    (h1 : jsStartsWith src (js "http") = false)
    (h2 : parsePathname src = some p)
    (h3 : jsStartsWith (pathResolve pub (stripLeadingSlash p)) (pathResolve1 pub) = false) :
    collectFilesStep remote pub origin st src =
      Except.error (JsError.invalidSourceUrl src) ∧
    collectFiles remote pub origin (src :: rest) st =
      Except.error (JsError.invalidSourceUrl src) := by
  have hstep : collectFilesStep remote pub origin st src =
      Except.error (JsError.invalidSourceUrl src) := by
    simp [collectFilesStep, h1, h2, h3]
  refine ⟨hstep, ?_⟩
  simp only [collectFiles, applyToSources, List.foldlM_cons, hstep]
  rfl

/-- Witness for `domScan_traversal_check`: the spec's own example
`/../../etc/passwd` resolves to `/etc/passwd`, fails the prefix test
against `/public`, and the DOM scan throws. -/
theorem domScan_traversal_check_witness :
    jsStartsWith (js "/../../etc/passwd") (js "http") = false ∧
    parsePathname (js "/../../etc/passwd") = some (js "/../../etc/passwd") ∧
    jsStartsWith (pathResolve (js "/public") (stripLeadingSlash (js "/../../etc/passwd")))
      (pathResolve1 (js "/public")) = false ∧
    collectFilesStep remoteConst (js "/public") (js "https://www.plesk.com")
      { disk := [], calls := [] } (js "/../../etc/passwd") =
      Except.error (JsError.invalidSourceUrl (js "/../../etc/passwd")) :=
  ⟨rfl, rfl, rfl,
    (domScan_traversal_check remoteConst (js "/public") (js "https://www.plesk.com")
      { disk := [], calls := [] } (js "/../../etc/passwd") (js "/../../etc/passwd") []
      rfl rfl rfl).1⟩

/-- C4 amended.  Per-reference idempotence holds in every phase: a
reference whose resolved local path is already present on disk causes no
download call and no state change (the two-run consequence, however, holds
only once a fixed point is reached; see the counterexample). -/
theorem existing_file_skipped (remote : JsStr → JsStr) (pub origin : JsStr)
    (st : RunState) (src p url : JsStr)
    (h1 : jsStartsWith src (js "http") = false)
    (h2 : parsePathname src = some p)
    (h3 : jsStartsWith (pathResolve pub (stripLeadingSlash p)) (pathResolve1 pub) = true)
    (h4 : fsExistsSync st.disk (pathResolve pub (stripLeadingSlash p)) = true)
    (h5 : fsExistsSync st.disk (pathResolve pub (stripLeadingSlash (stripQuery url))) = true) :
    collectFilesStep remote pub origin st src = Except.ok st ∧
    cssLoopStep remote pub origin st url = st := by
  constructor
  · simp [collectFilesStep, h1, h2, h3, h4]
  · simp [cssLoopStep, h5]

/-- Witness for `existing_file_skipped`: with `/public/wp-content/a.js`
already on disk, neither the DOM scan nor the CSS download loop touches
the network for `/wp-content/a.js`. -/
theorem existing_file_skipped_witness :
    fsExistsSync [(js "/public/wp-content/a.js", js "X")]
      (pathResolve (js "/public") (stripLeadingSlash (js "/wp-content/a.js"))) = true ∧
    collectFilesStep remoteConst (js "/public") (js "https://www.plesk.com")
      { disk := [(js "/public/wp-content/a.js", js "X")], calls := [] }
      (js "/wp-content/a.js") =
      Except.ok { disk := [(js "/public/wp-content/a.js", js "X")], calls := [] } ∧
    cssLoopStep remoteConst (js "/public") (js "https://www.plesk.com")
      { disk := [(js "/public/wp-content/a.js", js "X")], calls := [] }
      (js "/wp-content/a.js") =
      { disk := [(js "/public/wp-content/a.js", js "X")], calls := [] } := by
  have h := existing_file_skipped remoteConst (js "/public") (js "https://www.plesk.com")
    { disk := [(js "/public/wp-content/a.js", js "X")], calls := [] }
    (js "/wp-content/a.js") (js "/wp-content/a.js") (js "/wp-content/a.js")
    rfl rfl rfl rfl rfl
  exact ⟨rfl, h.1, h.2⟩

/-- C3 amended.  Query strings are stripped for local-path computation in
every phase, but only the DOM attribute scan fetches with the query string
preserved (`origin + src` with the raw attribute value, while the disk
path comes from the query-free `pathname`); the download loop shared by
the inline-style and on-disk CSS scans fetches `origin + stripQuery url`,
i.e. the query string is stripped from the fetch URL as well. -/
theorem query_string_handling (remote : JsStr → JsStr) (pub origin : JsStr)
    (st : RunState) (src p u q url : JsStr)
    (h1 : jsStartsWith src (js "http") = false)
    (h2 : parsePathname src = some p)
    (h3 : jsStartsWith (pathResolve pub (stripLeadingSlash p)) (pathResolve1 pub) = true)
    (h4 : fsExistsSync st.disk (pathResolve pub (stripLeadingSlash p)) = false)
    (h5 : url = u ++ '?' :: q) (h6 : '?' ∉ u) (h7 : '\n' ∉ q)
    (h8 : fsExistsSync st.disk (pathResolve pub (stripLeadingSlash u)) = false) :
    collectFilesStep remote pub origin st src =
      Except.ok { disk := (pathResolve pub (stripLeadingSlash p),
                    remote (origin ++ src)) :: st.disk,
                  calls := st.calls ++ [(origin ++ src,
                    pathResolve pub (stripLeadingSlash p))] } ∧
    stripQuery url = u ∧
    cssLoopStep remote pub origin st url =
      { disk := (pathResolve pub (stripLeadingSlash u),
          remote (origin ++ u)) :: st.disk,
        calls := st.calls ++ [(origin ++ u,
          pathResolve pub (stripLeadingSlash u))] } := by
  have hsq : stripQuery url = u := h5 ▸ stripQuery_split u q h6 h7
  refine ⟨?_, hsq, ?_⟩
  · simp [collectFilesStep, h1, h2, h3, h4]
  · simp [cssLoopStep, hsq, h8]

/-- Witness for `query_string_handling` at the spec's example
`/wp-content/a.js?ver=5`. -/
theorem query_string_handling_witness :
    parsePathname (js "/wp-content/a.js?ver=5") = some (js "/wp-content/a.js") ∧
    js "/wp-content/a.js?ver=5" = js "/wp-content/a.js" ++ '?' :: js "ver=5" ∧
    stripQuery (js "/wp-content/a.js?ver=5") = js "/wp-content/a.js" ∧
    collectFilesStep remoteConst (js "/public") (js "https://www.plesk.com")
      { disk := [], calls := [] } (js "/wp-content/a.js?ver=5") =
      Except.ok { disk := [(js "/public/wp-content/a.js", js "X")],
                  calls := [(js "https://www.plesk.com/wp-content/a.js?ver=5",
                    js "/public/wp-content/a.js")] } ∧
    cssLoopStep remoteConst (js "/public") (js "https://www.plesk.com")
      { disk := [], calls := [] } (js "/wp-content/a.js?ver=5") =
      { disk := [(js "/public/wp-content/a.js", js "X")],
        calls := [(js "https://www.plesk.com/wp-content/a.js",
          js "/public/wp-content/a.js")] } := by
  have h := query_string_handling remoteConst (js "/public") (js "https://www.plesk.com")
    { disk := [], calls := [] } (js "/wp-content/a.js?ver=5") (js "/wp-content/a.js")
    (js "/wp-content/a.js") (js "ver=5") (js "/wp-content/a.js?ver=5")
    rfl rfl rfl rfl (by decide) (by decide) (by decide) rfl
  exact ⟨rfl, by decide, h.2.1, h.1, h.2.2⟩

/-- C8.  A CSS text whose parse fails (modelled by the abstract parser
returning `none`, which `parseCssSafe`'s try/catch turns into `null`)
yields an empty reference sequence, and neither the inline-style scan nor
the on-disk CSS scan fails or downloads anything because of it: the run
continues. -/
theorem css_parse_failure_degrades (cssParse : JsStr → Option Stylesheet)
    (d : JsStr) (h : cssParse d = none) :
    parseCssDataUrls cssParse d = [] ∧
    (∀ tns : List TextNode,
      styleNodeUrls cssParse { children := { data := some d } :: tns } =
        Except.ok []) ∧
    (∀ (remote : JsStr → JsStr) (pub origin fpath : JsStr)
      (cs : List (JsStr × JsStr)),
      collectCssUrls cssParse remote pub origin { disk := [(fpath, d)], calls := cs } =
        { disk := [(fpath, d)], calls := cs }) := by
  have h0 : parseCssDataUrls cssParse d = [] := by
    simp [parseCssDataUrls, parseCssSafe, h]
  refine ⟨h0, ?_, ?_⟩
  · intro tns
    by_cases hd : d = [] <;> simp [styleNodeUrls, h0, hd]
  · intro remote pub origin fpath cs
    unfold collectCssUrls globCssFiles
    by_cases hf : (jsStartsWith fpath (pub ++ js "/") && jsEndsWith fpath (js ".css")) = true <;>
      simp [hf, h0, cssDownloadLoop]

/-- Witness for `css_parse_failure_degrades` on a text no parser accepts.
-/
theorem css_parse_failure_degrades_witness :
    (fun _ : JsStr => (none : Option Stylesheet)) (js "@@not css@@") = none ∧
    parseCssDataUrls (fun _ => none) (js "@@not css@@") = [] ∧
    collectCssUrls (fun _ => none) remoteConst (js "/p") (js "https://o")
      { disk := [(js "/p/wp-content/a.css", js "@@not css@@")], calls := [] } =
      { disk := [(js "/p/wp-content/a.css", js "@@not css@@")], calls := [] } := by
  have h := css_parse_failure_degrades (fun _ => none) (js "@@not css@@") rfl
  exact ⟨rfl, h.1, h.2.2 remoteConst (js "/p") (js "https://o") (js "/p/wp-content/a.css") []⟩

/-- C10 amended.  The inline-style scan is total on every `<style>`
element whose children array is nonempty: it returns successfully, and a
first child whose `data` property is absent (or empty) contributes no
references; it throws only on a `<style>` with no children at all (see the
counterexample). -/
theorem style_scan_total_on_nonempty (cssParse : JsStr → Option Stylesheet)
    (tn : TextNode) (tns : List TextNode) :
    (styleNodeUrls cssParse { children := tn :: tns }).isOk = true ∧
    (tn.data = none →
      styleNodeUrls cssParse { children := tn :: tns } = Except.ok []) ∧
    (∀ (remote : JsStr → JsStr) (pub origin : JsStr) (nodes : List StyleNode)
      (st : RunState), (∀ n ∈ nodes, n.children ≠ []) →
      (collectStyleUrls cssParse remote pub origin nodes st).isOk = true) := by
  have hok : ∀ n : StyleNode, n.children ≠ [] →
      ∃ us, styleNodeUrls cssParse n = Except.ok us := by
    intro n hn
    match hc : n.children with
    | [] => exact absurd hc hn
    | c :: cs =>
      match hd : c.data with
      | none => exact ⟨[], by simp [styleNodeUrls, hc, hd]⟩
      | some d =>
        by_cases he : d = []
        · exact ⟨[], by simp [styleNodeUrls, hc, hd, he]⟩
        · refine ⟨(parseCssDataUrls cssParse d).filter (fun url =>
            jsStartsWith url (js "/wp-content/") ||
              jsStartsWith url (js "/wp-includes/")), ?_⟩
          simp [styleNodeUrls, hc, hd, he]
  refine ⟨?_, ?_, ?_⟩
  · obtain ⟨us, hus⟩ := hok { children := tn :: tns } (by simp)
    simp [hus, Except.isOk, Except.toBool]
  · intro hd
    simp [styleNodeUrls, hd]
  · intro remote pub origin nodes st hall
    have hg : ∃ urls, gatherStyleUrls cssParse nodes = Except.ok urls := by
      induction nodes with
      | nil => exact ⟨[], rfl⟩
      | cons n rest ih =>
        obtain ⟨us, hus⟩ := hok n (hall n (by simp))
        obtain ⟨vs, hvs⟩ := ih fun m hm => hall m (by simp [hm])
        exact ⟨us ++ vs, by simp [gatherStyleUrls, hus, hvs]⟩
    obtain ⟨urls, hurls⟩ := hg
    simp [collectStyleUrls, hurls, Except.isOk, Except.toBool]

/-- Witness for `style_scan_total_on_nonempty`: a `<style>` whose only
child is a text node with no `data` property is handled without error and
contributes nothing. -/
theorem style_scan_total_on_nonempty_witness :
    styleNodeUrls cssParseRel { children := [{ data := none }] } = Except.ok [] ∧
    (collectStyleUrls cssParseRel remoteConst (js "/p") (js "https://o")
      [{ children := [{ data := none }] }] { disk := [], calls := [] }).isOk = true := by
  have h := style_scan_total_on_nonempty cssParseRel { data := none } []
  exact ⟨h.2.1 rfl, h.2.2 remoteConst (js "/p") (js "https://o")
    [{ children := [{ data := none }] }] { disk := [], calls := [] }
    (by intro n hn; simp at hn; simp [hn])⟩

/-- Helper: membership in a fold that appends `f x` for each element. -/
theorem mem_foldl_append {α β : Type} (f : α → List β) (l : List α)
    (init : List β) (b : β) :
    (b ∈ l.foldl (fun acc x => acc ++ f x) init) ↔
      b ∈ init ∨ ∃ x ∈ l, b ∈ f x := by
  induction l generalizing init with
  | nil => simp
  | cons a t ih =>
    rw [List.foldl_cons, ih]
    simp [List.mem_append, or_assoc]

/-- Helper: the captured group of a successful `url(...)` match consists
of characters of the regexp's class. -/
theorem matchUrlAt_group_chars (l g r : JsStr) (h : matchUrlAt l = some (g, r)) :
    ∀ c ∈ g, isUrlChar c = true := by
  unfold matchUrlAt at h
  cases hs : stripLit (js "url(") l with
  | none => rw [hs] at h; cases h
  | some l1 =>
    rw [hs] at h
    dsimp only at h
    split at h
    · cases h
    · split at h
      · simp only [Option.some.injEq, Prod.mk.injEq] at h
        obtain ⟨hg, _⟩ := h
        intro c hc
        exact List.mem_takeWhile_imp (hg ▸ hc)
      · cases h

/-- Helper: every string produced by the regexp scan consists of class
characters. -/
theorem cssUrlMatchesAux_chars (fuel : Nat) :
    ∀ (l s : JsStr), s ∈ cssUrlMatchesAux fuel l → ∀ c ∈ s, isUrlChar c = true := by
  induction fuel with
  | zero => intro l s hs; simp [cssUrlMatchesAux] at hs
  | succ n ih =>
    intro l s hs
    cases l with
    | nil => simp [cssUrlMatchesAux] at hs
    | cons a rest =>
      unfold cssUrlMatchesAux at hs
      cases hm : matchUrlAt (a :: rest) with
      | none => rw [hm] at hs; exact ih rest s hs
      | some pr =>
        obtain ⟨g, r⟩ := pr
        rw [hm] at hs
        rcases List.mem_cons.mp hs with h | h
        · subst h; exact matchUrlAt_group_chars _ _ _ hm
        · exact ih r s h

/-- C9.  Every string yielded by the CSS reference extractor consists only
of characters of the class `[A-Za-z0-9_\-=.?&#\/]`; in particular no
yielded string contains a colon, so `url(data:...)` and scheme-absolute
`url(https://...)` references are never yielded. -/
theorem extractor_char_class (cssParse : JsStr → Option Stylesheet)
    (d url : JsStr) (h : url ∈ parseCssDataUrls cssParse d) :
    (∀ c ∈ url, isUrlChar c = true) ∧ ':' ∉ url := by
  have hchars : ∀ c ∈ url, isUrlChar c = true := by
    unfold parseCssDataUrls parseCssSafe at h
    cases hp : cssParse d with
    | none => rw [hp] at h; cases h
    | some obj =>
      rw [hp] at h
      rw [mem_foldl_append] at h
      rcases h with h | ⟨r, _, h⟩
      · cases h
      · rw [mem_foldl_append] at h
        rcases h with h | ⟨dd, _, h⟩
        · cases h
        · unfold declUrls at h
          cases hv : dd.value with
          | none => rw [hv] at h; cases h
          | some v =>
            simp only [hv] at h
            split at h
            · cases h
            · exact cssUrlMatchesAux_chars v.length v url h
  refine ⟨hchars, fun hc => ?_⟩
  have := hchars ':' hc
  simp [isUrlChar] at this

/-- Witness for `extractor_char_class` on the concrete extraction of
`img/bg.png`. -/
theorem extractor_char_class_witness :
    js "img/bg.png" ∈ parseCssDataUrls cssParseRel (js "S") ∧
    (∀ c ∈ js "img/bg.png", isUrlChar c = true) ∧ ':' ∉ js "img/bg.png" :=
  ⟨by decide,
    (extractor_char_class cssParseRel (js "S") (js "img/bg.png") (by decide)).1,
    (extractor_char_class cssParseRel (js "S") (js "img/bg.png") (by decide)).2⟩

/-- Helper: `Except` bind on an error. -/
theorem except_bind_error {α β : Type} (e : JsError) (f : α → Except JsError β) :
    (Except.error e >>= f) = Except.error e := rfl

/-- Helper: `Except` bind on a success. -/
theorem except_bind_ok {α β : Type} (a : α) (f : α → Except JsError β) :
    (Except.ok a >>= f) = f a := rfl

/-- Helper: `Except` pure. -/
theorem except_pure {α : Type} (a : α) :
    (pure a : Except JsError α) = Except.ok a := rfl

/-- Helper: existence on a grown disk. -/
theorem fsExistsSync_cons (q : JsStr × JsStr) (disk : List (JsStr × JsStr))
    (p : JsStr) :
    fsExistsSync (q :: disk) p = (decide (q.1 = p) || fsExistsSync disk p) := by
  simp [fsExistsSync, List.any_cons]

/-- Helper: appending a fresh element keeps a list duplicate-free. -/
theorem nodup_append_singleton {α : Type} (l : List α) (a : α)
    (h1 : l.Nodup) (h2 : a ∉ l) : (l ++ [a]).Nodup := by
  simp [List.nodup_append, h1, h2]

/-- Helper: recording a download of a not-yet-present destination
preserves the call-log invariant. -/
theorem callsInv_download (st : RunState) (fetch dst body : JsStr)
    (hinv : CallsInv st) (hne : fsExistsSync st.disk dst = false) :
    CallsInv { disk := (dst, body) :: st.disk,
               calls := st.calls ++ [(fetch, dst)] } := by
  obtain ⟨h1, h2⟩ := hinv
  constructor
  · intro c hc
    rcases List.mem_append.mp hc with h | h
    · rw [fsExistsSync_cons]
      simp [h1 c h]
    · simp only [List.mem_singleton] at h
      subst h
      rw [fsExistsSync_cons]
      simp
  · rw [List.map_append]
    apply nodup_append_singleton _ _ h2
    intro hmem
    obtain ⟨c, hc, hcd⟩ := List.mem_map.mp hmem
    have hce := h1 c hc
    rw [hcd, hne] at hce
    cases hce

/-- Helper: the CSS download loop body preserves the invariant. -/
theorem callsInv_cssLoopStep (remote : JsStr → JsStr) (pub origin : JsStr)
    (st : RunState) (url : JsStr) (hinv : CallsInv st) :
    CallsInv (cssLoopStep remote pub origin st url) := by
  unfold cssLoopStep
  dsimp only
  split
  · exact hinv
  · next hne => exact callsInv_download st _ _ _ hinv (by simpa using hne)

/-- Helper: the CSS download loop preserves the invariant. -/
theorem callsInv_cssDownloadLoop (remote : JsStr → JsStr) (pub origin : JsStr) :
    ∀ (urls : List JsStr) (st : RunState), CallsInv st →
      CallsInv (cssDownloadLoop remote pub origin urls st) := by
  intro urls
  induction urls with
  | nil => intro st hinv; exact hinv
  | cons u t ih =>
    intro st hinv
    rw [cssDownloadLoop, List.foldl_cons]
    exact ih _ (callsInv_cssLoopStep remote pub origin st u hinv)

/-- Helper: the DOM-scan handler preserves the invariant. -/
theorem callsInv_collectFilesStep (remote : JsStr → JsStr) (pub origin : JsStr)
    (st st' : RunState) (src : JsStr) (hinv : CallsInv st)
    (h : collectFilesStep remote pub origin st src = Except.ok st') :
    CallsInv st' := by
  unfold collectFilesStep at h
  split at h
  · injection h with h; subst h; exact hinv
  · split at h
    · cases h
    · dsimp only at h
      split at h
      · cases h
      · split at h
        · injection h with h; subst h; exact hinv
        · next hne =>
          injection h with h
          subst h
          exact callsInv_download st _ _ _ hinv (by simpa using hne)

/-- Helper: the DOM-scan fold preserves the invariant. -/
theorem callsInv_collectFilesRun (remote : JsStr → JsStr) (pub origin : JsStr) :
    ∀ (srcs : List JsStr) (st st' : RunState), CallsInv st →
      List.foldlM (collectFilesStep remote pub origin) st srcs = Except.ok st' →
      CallsInv st' := by
  intro srcs
  induction srcs with
  | nil =>
    intro st st' hinv h
    rw [List.foldlM_nil, except_pure] at h
    injection h with h
    subst h
    exact hinv
  | cons a t ih =>
    intro st st' hinv h
    rw [List.foldlM_cons] at h
    cases hs : collectFilesStep remote pub origin st a with
    | error e => rw [hs, except_bind_error] at h; cases h
    | ok st1 =>
      rw [hs, except_bind_ok] at h
      exact ih st1 st' (callsInv_collectFilesStep remote pub origin st st1 a hinv hs) h

/-- Helper: the DOM attribute scan preserves the invariant. -/
theorem callsInv_collectFiles (remote : JsStr → JsStr) (pub origin : JsStr)
    (dom : List JsStr) (st st' : RunState) (hinv : CallsInv st)
    (h : collectFiles remote pub origin dom st = Except.ok st') : CallsInv st' := by
  unfold collectFiles applyToSources at h
  split at h
  · cases h
  · exact callsInv_collectFilesRun remote pub origin dom st st' hinv h

/-- Helper: the inline-style scan preserves the invariant. -/
theorem callsInv_collectStyleUrls (cssParse : JsStr → Option Stylesheet)
    (remote : JsStr → JsStr) (pub origin : JsStr) (nodes : List StyleNode)
    (st st' : RunState) (hinv : CallsInv st)
    (h : collectStyleUrls cssParse remote pub origin nodes st = Except.ok st') :
    CallsInv st' := by
  unfold collectStyleUrls at h
  split at h
  · cases h
  · injection h with h
    subst h
    exact callsInv_cssDownloadLoop remote pub origin _ st hinv

/-- C5.  At most one download per distinct destination path: in any engine
run the logged download calls have pairwise-distinct destination paths,
and two DOM elements carrying the identical (valid, not-yet-mirrored)
reference produce exactly one download call. -/
theorem download_dedup :
    (∀ (cssParse : JsStr → Option Stylesheet) (remote : JsStr → JsStr)
      (pub origin : JsStr) (dom : List JsStr) (styles : List StyleNode)
      (st0 : RunState), st0.calls = [] →
      ((callsOf (runEngine cssParse remote pub origin dom styles st0)).map
        Prod.snd).Nodup) ∧
    (∀ (remote : JsStr → JsStr) (pub origin src p : JsStr) (st0 : RunState),
      st0.calls = [] →
      jsStartsWith src (js "http") = false →
      parsePathname src = some p →
      jsStartsWith (pathResolve pub (stripLeadingSlash p)) (pathResolve1 pub) = true →
      fsExistsSync st0.disk (pathResolve pub (stripLeadingSlash p)) = false →
      (callsOf (collectFiles remote pub origin [src, src] st0)).length = 1) := by
  constructor
  · intro cssParse remote pub origin dom styles st0 h0
    have hinv0 : CallsInv st0 := by
      constructor
      · intro c hc; rw [h0] at hc; cases hc
      · rw [h0]; exact List.nodup_nil
    cases h1 : collectFiles remote pub origin dom st0 with
    | error e => simp [runEngine, h1, callsOf]
    | ok st1 =>
      have hinv1 := callsInv_collectFiles remote pub origin dom st0 st1 hinv0 h1
      cases h2 : collectStyleUrls cssParse remote pub origin styles st1 with
      | error e => simp [runEngine, h1, h2, callsOf]
      | ok st2 =>
        have hinv2 := callsInv_collectStyleUrls cssParse remote pub origin styles
          st1 st2 hinv1 h2
        have hinv3 : CallsInv (collectCssUrls cssParse remote pub origin st2) := by
          unfold collectCssUrls
          exact callsInv_cssDownloadLoop remote pub origin _ st2 hinv2
        simp only [runEngine, h1, h2]
        simpa [callsOf] using hinv3.2
  · intro remote pub origin src p st0 h0 h1 h2 h3 h4
    have hs1 : collectFilesStep remote pub origin st0 src =
        Except.ok { disk := (pathResolve pub (stripLeadingSlash p),
                      remote (origin ++ src)) :: st0.disk,
                    calls := st0.calls ++ [(origin ++ src,
                      pathResolve pub (stripLeadingSlash p))] } := by
      simp [collectFilesStep, h1, h2, h3, h4]
    have hs2 : collectFilesStep remote pub origin
        { disk := (pathResolve pub (stripLeadingSlash p),
            remote (origin ++ src)) :: st0.disk,
          calls := st0.calls ++ [(origin ++ src,
            pathResolve pub (stripLeadingSlash p))] } src =
        Except.ok { disk := (pathResolve pub (stripLeadingSlash p),
                      remote (origin ++ src)) :: st0.disk,
                    calls := st0.calls ++ [(origin ++ src,
                      pathResolve pub (stripLeadingSlash p))] } := by
      simp [collectFilesStep, h1, h2, h3, fsExistsSync_cons]
    unfold collectFiles applyToSources
    rw [if_neg (by simp)]
    rw [List.foldlM_cons, hs1, except_bind_ok, List.foldlM_cons, hs2,
      except_bind_ok, List.foldlM_nil, except_pure]
    simp [callsOf, h0]

/-- Witness for `download_dedup`: a concrete run has duplicate-free
destinations, and a duplicated DOM reference downloads exactly once. -/
theorem download_dedup_witness :
    ((callsOf (runEngine cssParseNest remoteNest (js "/p") (js "https://o")
      [js "/wp-content/a.css"] [] { disk := diskNest, calls := [] })).map
        Prod.snd).Nodup ∧
    (callsOf (collectFiles remoteConst (js "/public") (js "https://www.plesk.com")
      [js "/wp-content/a.js", js "/wp-content/a.js"]
      { disk := [], calls := [] })).length = 1 :=
  ⟨download_dedup.1 cssParseNest remoteNest (js "/p") (js "https://o")
      [js "/wp-content/a.css"] [] { disk := diskNest, calls := [] } rfl,
    download_dedup.2 remoteConst (js "/public") (js "https://www.plesk.com")
      (js "/wp-content/a.js") (js "/wp-content/a.js") { disk := [], calls := [] }
      rfl rfl rfl rfl rfl⟩

/-- Helper: splitting never yields an empty group list. -/
theorem splitOnChar_ne_nil (sep : Char) (l : JsStr) : splitOnChar sep l ≠ [] := by
  cases l with
  | nil => simp [splitOnChar]
  | cons c rest =>
    unfold splitOnChar
    cases splitOnChar sep rest with
    | nil => simp
    | cons g gs =>
      by_cases h : c = sep <;> simp [h]

/-- Helper: splitting a string that starts with the separator. -/
theorem splitOnChar_sep_cons (sep : Char) (l : JsStr) :
    splitOnChar sep (sep :: l) = [] :: splitOnChar sep l := by
  conv_lhs => rw [splitOnChar]
  cases h : splitOnChar sep l with
  | nil => exact absurd h (splitOnChar_ne_nil sep l)
  | cons g gs => simp

/-- Helper: splitting around one separator occurrence concatenates the
splits of both sides. -/
theorem splitOnChar_append_sep (sep : Char) (a b : JsStr) :
    splitOnChar sep (a ++ sep :: b) = splitOnChar sep a ++ splitOnChar sep b := by
  induction a with
  | nil =>
    rw [List.nil_append, splitOnChar_sep_cons]
    rfl
  | cons c t ih =>
    show splitOnChar sep (c :: (t ++ sep :: b)) = splitOnChar sep (c :: t) ++ splitOnChar sep b
    conv_lhs => rw [splitOnChar]
    rw [ih]
    cases h : splitOnChar sep t with
    | nil => exact absurd h (splitOnChar_ne_nil sep t)
    | cons g gs =>
      conv_rhs => rw [splitOnChar]
      rw [h]
      by_cases hc : c = sep <;> simp [hc]

/-- Helper: a separator-free string splits to itself. -/
theorem splitOnChar_no_sep (sep : Char) (l : JsStr) (h : sep ∉ l) :
    splitOnChar sep l = [l] := by
  induction l with
  | nil => simp [splitOnChar]
  | cons c t ih =>
    have hc : ¬ c = sep := fun e => h (e ▸ List.mem_cons_self c t)
    have ht : sep ∉ t := fun m => h (List.mem_cons_of_mem c m)
    unfold splitOnChar
    rw [ih ht]
    simp [hc]

/-- Helper: splitting inverts joining on slash-free segments. -/
theorem splitSlash_joinSegs (segs : List JsStr) (hne : segs ≠ [])
    (hclean : ∀ s ∈ segs, '/' ∉ s) : splitSlash (joinSegs segs) = segs := by
  induction segs with
  | nil => exact absurd rfl hne
  | cons s t ih =>
    cases t with
    | nil =>
      show splitSlash (joinSegs [s]) = [s]
      exact splitOnChar_no_sep '/' s (hclean s (by simp))
    | cons y u =>
      show splitSlash (s ++ '/' :: joinSegs (y :: u)) = s :: y :: u
      unfold splitSlash
      rw [splitOnChar_append_sep]
      rw [splitOnChar_no_sep '/' s (hclean s (by simp))]
      have := ih (by simp) (fun x hx => hclean x (List.mem_cons_of_mem s hx))
      unfold splitSlash at this
      rw [this]
      rfl

/-- Helper: `path.dirname` of an absolute path drops its last segment. -/
theorem pathDirname_abs (segs : List JsStr) (hclean : ∀ s ∈ segs, '/' ∉ s) :
    pathDirname ('/' :: joinSegs segs) = '/' :: joinSegs segs.dropLast := by
  cases segs with
  | nil => rfl
  | cons s t =>
    unfold pathDirname
    have h1 : splitSlash ('/' :: joinSegs (s :: t)) = [] :: s :: t := by
      unfold splitSlash
      rw [splitOnChar_sep_cons]
      have := splitSlash_joinSegs (s :: t) (by simp) hclean
      unfold splitSlash at this
      rw [this]
    rw [h1]
    rw [List.dropLast_cons_of_ne_nil (by simp)]
    cases ht : (s :: t).dropLast with
    | nil => rfl
    | cons d ds => rfl

/-- Helper: clean segments pass through normalization unchanged. -/
theorem resolveSegs_clean (segs : List JsStr)
    (h : ∀ s ∈ segs, s ≠ [] ∧ s ≠ ['.'] ∧ s ≠ ['.', '.']) :
    ∀ acc, resolveSegs acc segs = acc ++ segs := by
  induction segs with
  | nil => intro acc; simp [resolveSegs]
  | cons s t ih =>
    intro acc
    obtain ⟨h1, h2, h3⟩ := h s (by simp)
    rw [resolveSegs, List.foldl_cons]
    have hst : stepSeg acc s = acc ++ [s] := by
      unfold stepSeg
      rw [if_neg (by simp [h1, h2]), if_neg h3]
    rw [hst]
    have := ih (fun x hx => h x (List.mem_cons_of_mem s hx)) (acc ++ [s])
    rw [resolveSegs] at this
    rw [this, List.append_assoc]
    rfl

/-- Helper: resolving a relative reference against an absolute directory
normalizes the directory's segments followed by the reference's. -/
theorem resolve_abs_relative (D : List JsStr) (hD : ∀ s ∈ D, cleanSeg s)
    (r : JsStr) (hr : jsStartsWith r (js "/") = false) :
    pathResolve ('/' :: joinSegs D) r = joinAbs (resolveSegs D (splitSlash r)) := by
  unfold pathResolve
  rw [hr]
  show joinAbs (resolveSegs [] (splitSlash ('/' :: joinSegs D) ++ splitSlash r)) = _
  have h1 : splitSlash ('/' :: joinSegs D) = [] :: splitSlash (joinSegs D) :=
    splitOnChar_sep_cons '/' (joinSegs D)
  rw [h1]
  have h2 : resolveSegs [] (([] :: splitSlash (joinSegs D)) ++ splitSlash r) =
      resolveSegs (resolveSegs [] ([] :: splitSlash (joinSegs D))) (splitSlash r) := by
    rw [resolveSegs, resolveSegs, resolveSegs, List.foldl_append]
  rw [h2]
  have h3 : resolveSegs [] ([] :: splitSlash (joinSegs D)) = D := by
    rw [resolveSegs, List.foldl_cons]
    have hs : stepSeg [] [] = ([] : List JsStr) := by
      unfold stepSeg
      rw [if_pos (Or.inl rfl)]
    rw [hs]
    cases hD0 : D with
    | nil =>
      show List.foldl stepSeg [] (splitSlash (joinSegs [])) = []
      rfl
    | cons d ds =>
      have hcl : ∀ s ∈ D, '/' ∉ s := fun s hs => (hD s hs).2.2.2
      have hsj : splitSlash (joinSegs (d :: ds)) = d :: ds :=
        splitSlash_joinSegs (d :: ds) (by simp)
          (fun s hs => hcl s (by rw [hD0]; exact hs))
      rw [hsj]
      have hrc := resolveSegs_clean (d :: ds)
        (fun x hx => by
          have hc := hD x (by rw [hD0]; exact hx)
          exact ⟨hc.1, hc.2.1, hc.2.2.1⟩) []
      rw [resolveSegs] at hrc
      rw [hrc]
      rfl
  rw [h3]

/-- C6 amended.  Only `../`-prefixed relative references inside an on-disk
CSS file are handled, and for those the code's
`path.resolve(dirname(dirname(relFile)), url.substring(3))` is exactly
resolving the full `../rest` reference against the directory of the CSS
file's own path within the mirror (bare relative references are dropped;
see the counterexample). -/
theorem cssRel_resolved_against_css_dir (pub name : JsStr)
    (dirSegs : List JsStr) (rest : JsStr)
    (hname : cleanSeg name) (hdir : ∀ s ∈ dirSegs, cleanSeg s)
    (hrest : jsStartsWith rest (js "/") = false) :
    cssRefLocalPath pub (pub ++ '/' :: joinSegs (dirSegs ++ [name]))
      ('.' :: '.' :: '/' :: rest) =
      some (pathResolve (pathDirname ('/' :: joinSegs (dirSegs ++ [name])))
        ('.' :: '.' :: '/' :: rest)) := by
  have hw1 : jsStartsWith ('.' :: '.' :: '/' :: rest) (js "/wp-content/") = false := rfl
  have hw2 : jsStartsWith ('.' :: '.' :: '/' :: rest) (js "/wp-includes/") = false := rfl
  have hw3 : jsStartsWith ('.' :: '.' :: '/' :: rest) (js "../") = true := by
    show List.isPrefixOf ['.', '.', '/'] ('.' :: '.' :: '/' :: rest) = true
    simp [List.isPrefixOf]
  have hclean : ∀ s ∈ dirSegs ++ [name], '/' ∉ s := by
    intro s hs
    rcases List.mem_append.mp hs with h | h
    · exact (hdir s h).2.2.2
    · simp only [List.mem_singleton] at h
      subst h
      exact hname.2.2.2
  have hdrop : ∀ s ∈ dirSegs.dropLast, cleanSeg s :=
    fun s hs => hdir s ((List.dropLast_sublist dirSegs).subset hs)
  simp only [cssRefLocalPath, hw1, hw2, hw3, Bool.or_self, Bool.false_eq_true,
    if_false, if_true]
  rw [List.drop_left]
  have hd3 : List.drop 3 ('.' :: '.' :: '/' :: rest) = rest := rfl
  rw [hd3]
  have hA : pathDirname ('/' :: joinSegs (dirSegs ++ [name])) =
      '/' :: joinSegs dirSegs := by
    rw [pathDirname_abs (dirSegs ++ [name]) hclean, List.dropLast_concat]
  have hB : pathDirname ('/' :: joinSegs dirSegs) =
      '/' :: joinSegs dirSegs.dropLast :=
    pathDirname_abs dirSegs (fun s hs => (hdir s hs).2.2.2)
  rw [hA, hB]
  congr 1
  rw [resolve_abs_relative dirSegs.dropLast hdrop rest hrest]
  rw [resolve_abs_relative dirSegs hdir ('.' :: '.' :: '/' :: rest) rfl]
  have hsp : splitSlash ('.' :: '.' :: '/' :: rest) = ['.', '.'] :: splitSlash rest := by
    show splitOnChar '/' (['.', '.'] ++ '/' :: rest) = _
    rw [splitOnChar_append_sep, splitOnChar_no_sep '/' ['.', '.'] (by decide)]
    rfl
  rw [hsp]
  conv_rhs => rw [resolveSegs, List.foldl_cons]
  have hstep : stepSeg dirSegs ['.', '.'] = dirSegs.dropLast := by
    unfold stepSeg
    rw [if_neg (by simp), if_pos rfl]
  rw [hstep]
  rfl

/-- Witness for `cssRel_resolved_against_css_dir`: the reference
`../fonts/a.woff` inside `/p/wp-content/css/style.css` resolves as if
resolved against `/wp-content/css`. -/
theorem cssRel_resolved_against_css_dir_witness :
    cleanSeg (js "style.css") ∧ (∀ s ∈ [js "wp-content", js "css"], cleanSeg s) ∧
    cssRefLocalPath (js "/p")
      (js "/p" ++ '/' :: joinSegs ([js "wp-content", js "css"] ++ [js "style.css"]))
      ('.' :: '.' :: '/' :: js "fonts/a.woff") =
      some (pathResolve
        (pathDirname ('/' :: joinSegs ([js "wp-content", js "css"] ++ [js "style.css"])))
        ('.' :: '.' :: '/' :: js "fonts/a.woff")) :=
  ⟨by decide, by decide,
    cssRel_resolved_against_css_dir (js "/p") (js "style.css")
      [js "wp-content", js "css"] (js "fonts/a.woff") (by decide) (by decide) rfl⟩
